import Mathlib

/-!
Verification of the NEPHELE SAM2 frame-indexing and mask-propagation
orchestration pipeline (`src/SAM2/app/video_predict.py` and
`src/SAM2/app/point_picker_flask.py`), as a shallow embedding in Lean.

The embedding models:
  * `to_u8_mask` (video_predict.py, lines 74-85): mask binarization, with
    8-bit unsigned arithmetic made explicit as `% 256`;
  * `_gather_frames` / `ensure_indexed` (video_predict.py, lines 33-70):
    frame discovery, sorting and dense re-indexing, over an abstract
    directory listing;
  * the `/save` handler (point_picker_flask.py, lines 1002-1063): the
    prompt store's write path, including the center-point fallback;
  * `run_preview_masks` (point_picker_flask.py, lines 864-907): the
    preview-directory clear and repopulation;
  * the preview / full emission loops of `run_sam2`
    (video_predict.py, lines 252-282), with the opaque SAM2 propagation
    traversal abstracted as a list of frame indices (one per remaining
    frame, per the engine's interface contract).

Floating-point mask and coordinate values are modelled by `ℚ`: the store
and writer never do arithmetic on them beyond the 0.5 threshold compare,
which is exact.
-/

/- ===================== Artifact writer (to_u8_mask) ===================== -/

/-- Multiplication in unsigned 8-bit arithmetic (NumPy `uint8` / Torch
`uint8` wrap around modulo 256). -/
def u8mul (a b : Nat) : Nat := a * b % 256

/-- The three kinds of mask arrays `to_u8_mask` is fed: boolean arrays,
floating-point arrays, and already 8-bit (`uint8`) arrays.  A mask is
modelled as the flat list of its pixel values. -/
inductive MaskInput where
  | boolMask (px : List Bool)
  | floatMask (px : List ℚ)
  | u8Mask (px : List Nat)
deriving DecidableEq

/-- Shallow embedding of `to_u8_mask` (video_predict.py, lines 74-85): a
floating-point mask is thresholded with `x > 0.5` and the resulting 0/1
values are scaled by 255; a boolean mask is cast to 0/1 and scaled by
255; any other (already `uint8`) mask is scaled by 255 directly, in
wrapping 8-bit arithmetic. -/
def to_u8_mask : MaskInput → List Nat
  | .boolMask px => px.map (fun b => u8mul (if b then 1 else 0) 255)
  | .floatMask px => px.map (fun v => u8mul (if (1 : ℚ)/2 < v then 1 else 0) 255)
  | .u8Mask px => px.map (fun v => u8mul v 255)

/- ===================== Prompt store (/save handler) ===================== -/

/-- One incoming clicked point of the `/save` request payload: an entry
`{x: ..., y: ..., l: ...}` of the per-frame point list. -/
structure RawPoint where
  x : ℚ
  y : ℚ
  l : Int
deriving DecidableEq

/-- The persisted `prompts.json` record written by the `/save` handler
(point_picker_flask.py, lines 1040-1053). -/
structure PromptRecord where
  frame_idx : Nat
  obj_id : Nat
  points : List (ℚ × ℚ)
  labels : List Int
  image_w : Nat
  image_h : Nat
deriving DecidableEq

/-- The point/label accumulation loop of the `/save` handler
(point_picker_flask.py, lines 1022-1027): each incoming entry appends one
point to `pts` and one label to `labs`, in one pass. -/
def buildPrompt (raw : List RawPoint) : List (ℚ × ℚ) × List Int :=
  raw.foldl (fun acc p => (acc.1 ++ [(p.x, p.y)], acc.2 ++ [p.l])) ([], [])

/-- Shallow embedding of the record construction in the `/save` handler
(point_picker_flask.py, lines 1020-1053): builds `pts`/`labs` from the
incoming entries, substitutes a single positive point at the image center
(`[w // 2, h // 2]`, label 1) when `pts` is empty, and persists the
record with `frame_idx = 0` and `obj_id = 1`.  `w`, `h` are the annotated
image's dimensions. -/
def save (raw : List RawPoint) (w h : Nat) : PromptRecord :=
  let bp := buildPrompt raw
  if bp.1 = [] then
    { frame_idx := 0, obj_id := 1
      points := [(((w / 2 : Nat) : ℚ), ((h / 2 : Nat) : ℚ))], labels := [1]
      image_w := w, image_h := h }
  else
    { frame_idx := 0, obj_id := 1
      points := bp.1, labels := bp.2
      image_w := w, image_h := h }

/-- Read-back of the persisted record as consumed by `run_sam2`
(video_predict.py, lines 191-196): the `points` and `labels` lists are
taken from the stored record (Python's `json.dump`/`json.load` round-trip
these values exactly). -/
def readPrompt (r : PromptRecord) : List (ℚ × ℚ) × List Int :=
  (r.points, r.labels)

/-- Packs separate point and label lists into the entry-list form the
`/save` handler consumes (pairing pointwise, as the browser payload
does). -/
def zipRaw (pts : List (ℚ × ℚ)) (labs : List Int) : List RawPoint :=
  (pts.zip labs).map (fun q => ⟨q.1.1, q.1.2, q.2⟩)

/-- Error vocabulary of the spec's Prompt Store contract. -/
inductive SaveError where
  | invalidPrompt
deriving DecidableEq

/-- Spec-side write operation, stated from the spec's words for
comparison with the source's `save`: it validates
`len(points) == len(labels)` and that all labels are 0/1, failing with
`InvalidPrompt` otherwise, and defers to the actual record construction
when validation passes. -/
def writeSpec (pts : List (ℚ × ℚ)) (labs : List Int) (w h : Nat) :
    Except SaveError PromptRecord :=
  if pts.length = labs.length ∧ ∀ l ∈ labs, l = 0 ∨ l = 1 then
    Except.ok (save (zipRaw pts labs) w h)
  else
    Except.error SaveError.invalidPrompt

/- ===================== Helper lemmas: prompt store ===================== -/

theorem buildPrompt_foldl (raw : List RawPoint) :
    ∀ acc : List (ℚ × ℚ) × List Int,
      raw.foldl (fun acc p => (acc.1 ++ [(p.x, p.y)], acc.2 ++ [p.l])) acc =
        (acc.1 ++ raw.map (fun p => (p.x, p.y)), acc.2 ++ raw.map (fun p => p.l)) := by
  induction raw with
  | nil => intro acc; simp
  | cons p rest ih =>
      intro acc
      simp only [List.foldl_cons, List.map_cons, ih]
      simp

theorem buildPrompt_eq (raw : List RawPoint) :
    buildPrompt raw = (raw.map (fun p => (p.x, p.y)), raw.map (fun p => p.l)) := by
  have h := buildPrompt_foldl raw ([], [])
  simpa [buildPrompt] using h

/- ===================== Frame indexer ===================== -/

/-- Lowercasing of a string, character by character (Python `str.lower`
restricted to the ASCII extensions this pipeline handles). -/
def strToLower (s : String) : String := String.mk (s.data.map Char.toLower)

/-- An entry of the source directory, with its name split as
`os.path.splitext` does: `stem` is everything before the last extension
separator, `ext` the extension including its leading dot (empty when
there is none).  `isDir` records whether the entry is a subdirectory:
`glob` matches directories like any other name, but `shutil.copy2`
raises on them. -/
structure SrcFile where
  stem : String
  ext : String
  isDir : Bool
deriving DecidableEq

/-- Full file name (the path component the directory listing shows and
`sorted` compares). -/
def SrcFile.path (f : SrcFile) : String := f.stem ++ f.ext

/-- The six glob patterns `_gather_frames` expands (video_predict.py,
lines 35-37): the accepted extensions in all-lowercase and all-uppercase
form.  `glob` matches case-sensitively, so no other casing is found. -/
def GLOB_EXTS : List String := [".jpg", ".jpeg", ".png", ".JPG", ".JPEG", ".PNG"]

/-- The accepted (lowercase) extensions, `ACCEPT_EXTS` of
video_predict.py line 18. -/
def ACCEPT_EXTS : List String := [".jpg", ".jpeg", ".png"]

/-- Lexicographic comparison of character lists by code point, the order
Python's `sorted` applies to path strings. -/
def charsLe : List Char → List Char → Bool
  | [], _ => true
  | _ :: _, [] => false
  | a :: as, b :: bs =>
    if a.toNat < b.toNat then true
    else if b.toNat < a.toNat then false
    else charsLe as bs

/-- Path order on source files: lexicographic on the full file name. -/
def pathLe (f g : SrcFile) : Prop := charsLe f.path.data g.path.data = true

/-- Whether `glob`'s `*` may match the entry's name at all: `glob` never
matches a name whose first character is a dot (hidden entries such as
`.hidden.jpg` stay undiscovered even though their `splitext` extension
is accepted). -/
def notHidden (f : SrcFile) : Bool :=
  match f.path.data with
  | [] => false
  | c :: _ => decide (c ≠ '.')

/-- Whether one of the six glob patterns matches the entry: the name is
not dot-prefixed and its extension is one of the six exact-case
patterns.  Directory entries are matched like files. -/
def globMatch (f : SrcFile) : Bool :=
  notHidden f && decide (f.ext ∈ GLOB_EXTS)

instance : DecidableRel pathLe := fun f g => by unfold pathLe; infer_instance

theorem charsLe_total : ∀ as bs : List Char, charsLe as bs = true ∨ charsLe bs as = true := by
  intro as
  induction as with
  | nil => intro bs; left; rfl
  | cons a as ih =>
      intro bs
      cases bs with
      | nil => right; rfl
      | cons b bs =>
          by_cases hab : a.toNat < b.toNat
          · left; simp [charsLe, hab]
          · by_cases hba : b.toNat < a.toNat
            · right; simp [charsLe, hba]
            · rcases ih bs with h | h
              · left; simp [charsLe, hab, hba, h]
              · right; simp [charsLe, hab, hba, h]

theorem charsLe_trans : ∀ as bs cs : List Char,
    charsLe as bs = true → charsLe bs cs = true → charsLe as cs = true := by
  intro as
  induction as with
  | nil => intro bs cs _ _; rfl
  | cons a as ih =>
      intro bs cs h1 h2
      cases bs with
      | nil => simp [charsLe] at h1
      | cons b bs =>
          cases cs with
          | nil => simp [charsLe] at h2
          | cons c cs =>
              simp only [charsLe] at h1 h2 ⊢
              split_ifs at h1 h2 ⊢ with hab hba hbc hcb hac hca
              all_goals first
                | rfl
                | omega
                | (exact ih bs cs h1 h2)

instance : IsTotal SrcFile pathLe :=
  ⟨fun f g => charsLe_total f.path.data g.path.data⟩

instance : IsTrans SrcFile pathLe :=
  ⟨fun f g h h1 h2 => charsLe_trans _ _ _ h1 h2⟩

/-- Shallow embedding of `_gather_frames` (video_predict.py, lines
33-38): keep the entries matched by one of the six glob patterns
(non-hidden names with an exact-case accepted extension; subdirectories
included), deduplicate (Python's `set` of absolute paths) and sort by
path. -/
def gather_frames (dir : List SrcFile) : List SrcFile :=
  List.insertionSort pathLe ((dir.filter globMatch).dedup)

/-- Errors of the indexing step: `NotADirectoryError` when the source is
not a directory, the `FileNotFoundError("No frames in ...")` raised when
no frame is gathered (the spec's `NoFramesFound`), and the
`IsADirectoryError` that `shutil.copy2` raises when a glob-matched entry
is a subdirectory. -/
inductive IndexError where
  | notADirectory
  | noFrames
  | copyFailed
deriving DecidableEq

/-- Zero-padded name `f"{i:06d}"` (widens beyond six digits when `i` is
large, exactly as Python's format does). -/
def fmt6 (i : Nat) : String :=
  let s := toString i
  String.mk (List.replicate (6 - s.length) '0') ++ s

/-- The copy loop of `ensure_indexed` (video_predict.py, lines 63-68),
with the running `enumerate` counter made explicit: file `i` is written
as `{i:06d}{ext.lower()}` unless its lowercased extension is not
accepted, in which case it is skipped (`continue`) while the counter
still advances. -/
def indexEntries : Nat → List SrcFile → List String
  | _, [] => []
  | i, f :: rest =>
    let ext := strToLower f.ext
    (if ext ∈ ACCEPT_EXTS then [fmt6 i ++ ext] else []) ++ indexEntries (i + 1) rest

/-- Shallow embedding of `ensure_indexed` (video_predict.py, lines
46-70).  The source is `none` when `src_dir` is not a directory
(`os.path.isdir` false), otherwise the directory's listing.  The
destination directory is rebuilt from scratch on every call; the result
is the list of names it ends up containing after a completed run, in
creation order.  When a gathered entry is a subdirectory the copy loop
raises `IsADirectoryError` and the run aborts (the names copied before
the raise are not modelled, as the function never returns then). -/
def ensure_indexed (src : Option (List SrcFile)) : Except IndexError (List String) :=
  match src with
  | none => Except.error IndexError.notADirectory
  | some dir =>
      let files := gather_frames dir
      if files = [] then Except.error IndexError.noFrames
      else if files.any (fun f => f.isDir) then Except.error IndexError.copyFailed
      else Except.ok (indexEntries 0 files)

/- ===================== Helper lemmas: indexer ===================== -/

theorem glob_toLower_accepted (e : String) (h : e ∈ GLOB_EXTS) :
    strToLower e ∈ ACCEPT_EXTS := by
  simp only [GLOB_EXTS, List.mem_cons, List.not_mem_nil, or_false] at h
  rcases h with h | h | h | h | h | h
  all_goals subst h; decide

theorem indexEntries_length (files : List SrcFile) :
    ∀ i, (∀ f ∈ files, strToLower f.ext ∈ ACCEPT_EXTS) →
      (indexEntries i files).length = files.length := by
  induction files with
  | nil => intro i _; rfl
  | cons f rest ih =>
      intro i h
      have hf : strToLower f.ext ∈ ACCEPT_EXTS := h f (List.mem_cons_self f rest)
      have hrest : ∀ g ∈ rest, strToLower g.ext ∈ ACCEPT_EXTS :=
        fun g hg => h g (List.mem_cons_of_mem f hg)
      simp [indexEntries, hf, ih (i + 1) hrest]

theorem indexEntries_get (files : List SrcFile) :
    ∀ i k (hk : k < (indexEntries i files).length) (hk2 : k < files.length),
      (∀ f ∈ files, strToLower f.ext ∈ ACCEPT_EXTS) →
      (indexEntries i files).get ⟨k, hk⟩ = fmt6 (i + k) ++ strToLower (files.get ⟨k, hk2⟩).ext := by
  induction files with
  | nil => intro i k _ hk2 _; simp at hk2
  | cons f rest ih =>
      intro i k hk hk2 h
      have hf : strToLower f.ext ∈ ACCEPT_EXTS := h f (List.mem_cons_self f rest)
      have hrest : ∀ g ∈ rest, strToLower g.ext ∈ ACCEPT_EXTS :=
        fun g hg => h g (List.mem_cons_of_mem f hg)
      have hcons : indexEntries i (f :: rest) =
          (fmt6 i ++ strToLower f.ext) :: indexEntries (i + 1) rest := by
        simp [indexEntries, hf]
      cases k with
      | zero => simp [indexEntries, hf]
      | succ k =>
          have hk' : k < (indexEntries (i + 1) rest).length := by
            have := indexEntries_length rest (i + 1) hrest
            simp [indexEntries, hf] at hk
            omega
          have hk2' : k < rest.length := by simpa using hk2
          have hih := ih (i + 1) k hk' hk2' hrest
          simp only [List.get_eq_getElem] at hih ⊢
          simp only [hcons, List.getElem_cons_succ]
          rw [show i + (k + 1) = i + 1 + k from by omega]
          exact hih

/- ===================== Preview directory (run_preview_masks) ===================== -/

/-- One entry of the preview directory: a name plus whether it is a
subdirectory (`Path.unlink` removes regular files but raises on
directories). -/
structure FsEntry where
  name : String
  isDir : Bool
deriving DecidableEq

/-- Shallow embedding of the clearing loop of `run_preview_masks`
(point_picker_flask.py, lines 874-879): every entry of `PREVIEW_DIR` is
`unlink`ed with the exception swallowed, so regular files are removed
and entries whose `unlink` raises (subdirectories) survive. -/
def clearPreviewDir (prior : List FsEntry) : List FsEntry :=
  prior.filter (fun e => e.isDir)

/-- State of the preview directory after a preview run: the cleared
directory plus the artifact files (regular files, one per emitted
preview name) that `video_predict.py --preview` writes into it. -/
def runPreviewDir (prior : List FsEntry) (produced : List String) : List FsEntry :=
  clearPreviewDir prior ++ produced.map (fun n => ⟨n, false⟩)

/- ===================== Propagation emission (run_sam2) ===================== -/

/-- The candidate indices for preview sampling (video_predict.py, line
268): every frame index except the annotated one. -/
def candidates (N F : Nat) : List Nat :=
  (List.range N).filter (fun i => decide (i ≠ F))

/-- The extra-frame budget of preview mode (video_predict.py, line 265):
`max(0, min(preview_num_frames - 1, num_total_frames - 1))`. -/
def extra_needed (n N : Nat) : Nat := max 0 (min (n - 1) (N - 1))

/-- The preview emission loop of `run_sam2` (video_predict.py, lines
271-278) over the traversal `l` yielded by the opaque propagation: a
frame is saved when it is one of the sampled extras, the running counter
`saved` is incremented, and the loop breaks as soon as
`saved >= max(1, preview_num_frames)` (here `stop`). -/
def previewSaves (chosen : List Nat) (stop : Nat) : List Nat → Nat → List Nat
  | [], _ => []
  | f :: rest, saved =>
    if f ∈ chosen then
      if stop ≤ saved + 1 then [f]
      else f :: previewSaves chosen stop rest (saved + 1)
    else previewSaves chosen stop rest saved

/-- The full sequence of frame indices whose results preview mode emits
(video_predict.py, lines 255-278): the annotated frame `F` first (the
seeding call always yields it), then the sampled frames in traversal
order, stopping at the budget. -/
def emitPreview (F n : Nat) (chosen prop : List Nat) : List Nat :=
  F :: previewSaves chosen (max 1 n) prop 1

/-- The full sequence of frame indices whose results full mode emits
(video_predict.py, lines 255-282): the annotated frame `F` first, then
one result per frame of the propagation traversal. -/
def emitFull (F : Nat) (prop : List Nat) : List Nat :=
  F :: prop

/- ===================== Helper lemmas: propagation ===================== -/

theorem previewSaves_eq_take (chosen : List Nat) (stop : Nat) :
    ∀ (l : List Nat) (saved : Nat), saved < stop ∨ chosen = [] →
      previewSaves chosen stop l saved =
        (l.filter (fun x => decide (x ∈ chosen))).take (stop - saved) := by
  intro l
  induction l with
  | nil => intro saved _; simp [previewSaves]
  | cons f rest ih =>
      intro saved hs
      by_cases hf : f ∈ chosen
      · have hlt : saved < stop := by
          rcases hs with h | h
          · exact h
          · subst h; simp at hf
        by_cases hstop : stop ≤ saved + 1
        · have h1 : stop - saved = 1 := by omega
          simp [previewSaves, hf, hstop, h1]
        · have h2 : stop - saved = (stop - (saved + 1)) + 1 := by omega
          have := ih (saved + 1) (Or.inl (by omega))
          simp [previewSaves, hf, hstop, h2, this]
      · simp [previewSaves, hf, ih saved hs]

theorem candidates_nodup (N F : Nat) : (candidates N F).Nodup :=
  (List.nodup_range N).filter _

theorem mem_candidates (N F i : Nat) : i ∈ candidates N F ↔ i < N ∧ i ≠ F := by
  simp [candidates, List.mem_filter, List.mem_range]

theorem filter_mem_perm (prop chosen : List Nat)
    (hpn : prop.Nodup) (hnd : chosen.Nodup) (hsub : ∀ i ∈ chosen, i ∈ prop) :
    List.Perm (prop.filter (fun x => decide (x ∈ chosen))) chosen := by
  apply (List.perm_ext_iff_of_nodup (hpn.filter _) hnd).mpr
  intro a
  simp only [List.mem_filter, decide_eq_true_eq]
  constructor
  · exact fun h => h.2
  · exact fun h => ⟨hsub a h, h⟩

/- ===================== Claim C3 ===================== -/

/-- C3, counterexample: a pre-scaled 8-bit mask (an accepted input, here
the single pixel 255) is multiplied by 255 in wrapping `uint8`
arithmetic, so the output contains 1 — not only the values 0 and 255 as
the claim states. -/
theorem claim_C3_counterexample :
    (∀ v ∈ ([255] : List Nat), v < 256) ∧
    ¬ (∀ y ∈ to_u8_mask (MaskInput.u8Mask [255]), y = 0 ∨ y = 255) := by
  decide

/-- C3 (amended): boolean masks and float masks (thresholded at 0.5)
produce only the pixel values 0 and 255; a pre-scaled 8-bit mask with
values in {0, 255} instead produces values in {0, 1}, because the final
scaling by 255 wraps around in 8-bit arithmetic. -/
theorem claim_C3_binary_mask :
    (∀ px : List Bool, ∀ y ∈ to_u8_mask (MaskInput.boolMask px), y = 0 ∨ y = 255) ∧
    (∀ px : List ℚ, ∀ y ∈ to_u8_mask (MaskInput.floatMask px), y = 0 ∨ y = 255) ∧
    (∀ px : List Nat, (∀ v ∈ px, v = 0 ∨ v = 255) →
      ∀ y ∈ to_u8_mask (MaskInput.u8Mask px), y = 0 ∨ y = 1) := by
  refine ⟨?_, ?_, ?_⟩
  · intro px y hy
    simp only [to_u8_mask, List.mem_map] at hy
    obtain ⟨b, _, rfl⟩ := hy
    cases b
    · left; decide
    · right; decide
  · intro px y hy
    simp only [to_u8_mask, List.mem_map] at hy
    obtain ⟨v, _, rfl⟩ := hy
    by_cases h : (1 : ℚ)/2 < v
    · right; rw [if_pos h]; decide
    · left; rw [if_neg h]; decide
  · intro px hpx y hy
    simp only [to_u8_mask, List.mem_map] at hy
    obtain ⟨v, hv, rfl⟩ := hy
    rcases hpx v hv with rfl | rfl
    · left; decide
    · right; decide

/-- Witness for C3 (amended) at the concrete 8-bit mask `[0, 255]`. -/
theorem claim_C3_binary_mask_witness :
    (∀ v ∈ ([0, 255] : List Nat), v = 0 ∨ v = 255) ∧
    (∀ y ∈ to_u8_mask (MaskInput.u8Mask [0, 255]), y = 0 ∨ y = 1) :=
  ⟨by decide, claim_C3_binary_mask.2.2 [0, 255] (by decide)⟩

/- ===================== Claim C5 ===================== -/

/-- C5, counterexample: a write whose single label is 7 must fail with
`InvalidPrompt` according to the claim (the spec-side `writeSpec` indeed
rejects it), but the source's save path succeeds and persists the
label 7 unchanged. -/
theorem claim_C5_counterexample :
    writeSpec [((1 : ℚ), (2 : ℚ))] [7] 10 10 = Except.error SaveError.invalidPrompt ∧
    (save (zipRaw [((1 : ℚ), (2 : ℚ))] [7]) 10 10).labels = [7] := by
  exact ⟨rfl, rfl⟩

/-- C5 (amended): the save path performs no points/labels validation and
never fails with `InvalidPrompt`: a length mismatch cannot arise because
each incoming entry appends exactly one point and one label together,
and label values other than 0/1 are accepted and persisted unchanged. -/
theorem claim_C5_no_validation (raw : List RawPoint) (w h : Nat) :
    (save raw w h).points.length = (save raw w h).labels.length ∧
    (raw ≠ [] → (save raw w h).labels = raw.map (fun p => p.l)) := by
  by_cases hr : raw = []
  · subst hr
    exact ⟨rfl, fun hc => absurd rfl hc⟩
  · have hne : raw.map (fun p : RawPoint => (p.x, p.y)) ≠ [] := by
      simpa using hr
    constructor
    · simp [save, buildPrompt_eq, hne]
    · intro _
      simp [save, buildPrompt_eq, hne]

/-- Witness for C5 (amended): a concrete write with the out-of-range
label 7 keeps it as is. -/
theorem claim_C5_no_validation_witness :
    (save [RawPoint.mk 1 2 7] 10 10).points.length =
      (save [RawPoint.mk 1 2 7] 10 10).labels.length ∧
    (save [RawPoint.mk 1 2 7] 10 10).labels = [7] := by
  have h := claim_C5_no_validation [RawPoint.mk 1 2 7] 10 10
  exact ⟨h.1, by simpa using h.2 (by simp)⟩

/- ===================== Claim C6 ===================== -/

/-- C6: writing with an empty point list yields exactly one point — the
image center `(w // 2, h // 2)` with positive label 1 — and the fallback
is applied only then: a non-empty point list is persisted as given. -/
theorem claim_C6_center_fallback (raw : List RawPoint) (w h : Nat) :
    (raw = [] →
      (save raw w h).points = [(((w / 2 : Nat) : ℚ), ((h / 2 : Nat) : ℚ))] ∧
      (save raw w h).labels = [1]) ∧
    (raw ≠ [] → (save raw w h).points = raw.map (fun p => (p.x, p.y))) := by
  constructor
  · rintro rfl
    exact ⟨rfl, rfl⟩
  · intro hr
    have hne : raw.map (fun p : RawPoint => (p.x, p.y)) ≠ [] := by
      simpa using hr
    simp [save, buildPrompt_eq, hne]

/-- Witness for C6 at the empty point list on a 10×8 image. -/
theorem claim_C6_center_fallback_witness :
    (save ([] : List RawPoint) 10 8).points =
      [(((10 / 2 : Nat) : ℚ), ((8 / 2 : Nat) : ℚ))] ∧
    (save ([] : List RawPoint) 10 8).labels = [1] :=
  (claim_C6_center_fallback [] 10 8).1 rfl

/- ===================== Claim C8 ===================== -/

/-- C8: writing a valid (non-empty, aligned) points/labels pair through
the save path and reading the record back yields exactly the lists that
were written, order preserved. -/
theorem claim_C8_roundtrip (pts : List (ℚ × ℚ)) (labs : List Int) (w h : Nat)
    (hlen : pts.length = labs.length) (hne : pts ≠ []) :
    readPrompt (save (zipRaw pts labs) w h) = (pts, labs) := by
  have hfst : (zipRaw pts labs).map (fun p => (p.x, p.y)) = pts := by
    simp only [zipRaw, List.map_map, Function.comp_def, Prod.mk.eta]
    exact List.map_fst_zip pts labs (le_of_eq hlen)
  have hsnd : (zipRaw pts labs).map (fun p => p.l) = labs := by
    simp only [zipRaw, List.map_map, Function.comp_def]
    exact List.map_snd_zip pts labs (le_of_eq hlen.symm)
  have hnonempty : (zipRaw pts labs).map (fun p : RawPoint => (p.x, p.y)) ≠ [] := by
    rw [hfst]; exact hne
  simp [readPrompt, save, buildPrompt_eq, hnonempty, hfst, hsnd, hne]

/-- Witness for C8 at a concrete one-point record. -/
theorem claim_C8_roundtrip_witness :
    ([((1 : ℚ), (2 : ℚ))].length = ([0] : List Int).length) ∧
    readPrompt (save (zipRaw [((1 : ℚ), (2 : ℚ))] [0]) 3 4) = ([((1 : ℚ), (2 : ℚ))], [0]) :=
  ⟨rfl, claim_C8_roundtrip [((1 : ℚ), (2 : ℚ))] [0] 3 4 rfl (by simp)⟩

/- ===================== Claim C10 ===================== -/

/-- C10: every record the save path produces has as many labels as
points and a non-empty point list — the loop appends points and labels
in lockstep and the empty case is replaced by the center point — with no
explicit length validation anywhere. -/
theorem claim_C10_record_invariant (raw : List RawPoint) (w h : Nat) :
    (save raw w h).points.length = (save raw w h).labels.length ∧
    (save raw w h).points ≠ [] := by
  by_cases hr : raw.map (fun p : RawPoint => (p.x, p.y)) = []
  · constructor
    · simp [save, buildPrompt_eq, hr]
    · simp [save, buildPrompt_eq, hr]
  · constructor
    · simp [save, buildPrompt_eq, hr]
    · simp [save, buildPrompt_eq, hr]

/- ===================== Claim C9 ===================== -/

/-- C9, counterexample: a subdirectory sitting in the preview directory
survives the clearing loop (its `unlink` raises and the exception is
swallowed), so the directory is not cleared of all prior contents and
after a run that produced no file it still holds a prior entry. -/
theorem claim_C9_counterexample :
    clearPreviewDir [FsEntry.mk "sub" true] = [FsEntry.mk "sub" true] ∧
    ¬ (∀ e ∈ runPreviewDir [FsEntry.mk "sub" true] [], e.name ∈ ([] : List String)) := by
  decide

/-- C9 (amended): before every preview run all regular files in the
preview directory are removed (entries whose removal fails — in
particular subdirectories — survive), so after the run every regular
file in the directory is an artifact produced by that run and no stale
preview file from an earlier run remains. -/
theorem claim_C9_preview_clear (prior : List FsEntry) (produced : List String) :
    (∀ e ∈ clearPreviewDir prior, e.isDir = true) ∧
    (∀ e ∈ runPreviewDir prior produced, e.isDir = false → e.name ∈ produced) := by
  constructor
  · intro e he
    exact (List.mem_filter.mp he).2
  · intro e he hfile
    rcases List.mem_append.mp he with h | h
    · have hd := (List.mem_filter.mp h).2
      rw [hfile] at hd
      cases hd
    · obtain ⟨n, hn, rfl⟩ := List.mem_map.mp h
      simpa using hn

/-- Witness for C9 (amended): after a run that produced `000000.jpg`
over a directory holding one stale file, the produced file is accounted
for by the run. -/
theorem claim_C9_preview_clear_witness :
    (FsEntry.mk "000000.jpg" false ∈
      runPreviewDir [FsEntry.mk "old.jpg" false] ["000000.jpg"]) ∧
    (FsEntry.mk "000000.jpg" false).name ∈ ["000000.jpg"] := by
  refine ⟨by decide, ?_⟩
  exact (claim_C9_preview_clear [FsEntry.mk "old.jpg" false] ["000000.jpg"]).2
    (FsEntry.mk "000000.jpg" false) (by decide) rfl

/- ===================== Claims C7 and C4 ===================== -/

theorem globMatch_ext (f : SrcFile) (h : globMatch f = true) : f.ext ∈ GLOB_EXTS := by
  simp only [globMatch, Bool.and_eq_true, decide_eq_true_eq] at h
  exact h.2

theorem mem_gather_frames (dir : List SrcFile) (f : SrcFile)
    (hf : f ∈ gather_frames dir) : f ∈ dir ∧ globMatch f = true := by
  have h1 : f ∈ (dir.filter globMatch).dedup :=
    (List.perm_insertionSort pathLe _).mem_iff.mp hf
  exact List.mem_filter.mp (List.mem_dedup.mp h1)

theorem gather_frames_accepted (dir : List SrcFile) :
    ∀ f ∈ gather_frames dir, strToLower f.ext ∈ ACCEPT_EXTS :=
  fun f hf => glob_toLower_accepted _ (globMatch_ext f (mem_gather_frames dir f hf).2)

/-- C7: indexing a source that is not an existing directory fails with
`NotADirectoryError`; indexing a directory with zero accepted-extension
files (none whose lowercased extension is jpg/jpeg/png) fails with the
no-frames error; and indexing never succeeds with an empty entry
sequence. -/
theorem claim_C7_index_errors :
    ensure_indexed none = Except.error IndexError.notADirectory ∧
    (∀ dir : List SrcFile, (∀ f ∈ dir, strToLower f.ext ∉ ACCEPT_EXTS) →
      ensure_indexed (some dir) = Except.error IndexError.noFrames) ∧
    (∀ src es, ensure_indexed src = Except.ok es → es ≠ []) := by
  refine ⟨rfl, ?_, ?_⟩
  · intro dir h
    have hfilt : dir.filter globMatch = [] := by
      rw [List.filter_eq_nil_iff]
      intro f hfd
      exact fun hm => h f hfd (glob_toLower_accepted _ (globMatch_ext f hm))
    have hg : gather_frames dir = [] := by
      unfold gather_frames
      rw [hfilt]
      rfl
    simp [ensure_indexed, hg]
  · intro src es hok hnil
    cases src with
    | none => simp [ensure_indexed] at hok
    | some dir =>
        by_cases hg : gather_frames dir = []
        · simp [ensure_indexed, hg] at hok
        · by_cases hd : ∃ x ∈ gather_frames dir, x.isDir = true
          · simp [ensure_indexed, hg, hd] at hok
          · have hes : indexEntries 0 (gather_frames dir) = es := by
              simpa [ensure_indexed, hg, hd] using hok
            have hlen := indexEntries_length (gather_frames dir) 0
              (gather_frames_accepted dir)
            rw [hes, hnil] at hlen
            simp only [List.length_nil] at hlen
            exact hg (List.length_eq_zero.mp hlen.symm)

/-- Witness for C7 at a directory holding a single `.txt` file. -/
theorem claim_C7_index_errors_witness :
    (∀ f ∈ [SrcFile.mk "a" ".txt" false], strToLower f.ext ∉ ACCEPT_EXTS) ∧
    ensure_indexed (some [SrcFile.mk "a" ".txt" false]) = Except.error IndexError.noFrames :=
  ⟨by decide, claim_C7_index_errors.2.1 [SrcFile.mk "a" ".txt" false] (by decide)⟩

/-- C4, counterexample: three directory listings whose sole entry has an
accepted lowercased extension — the mixed-case `a.Jpg`, the hidden
`.hidden.jpg`, and a subdirectory named `sub.jpg` — for each of which
the claim asserts exactly one produced entry, while the program raises
the no-frames error for the first two (the glob patterns are
case-sensitive and never match dot-prefixed names) and
`IsADirectoryError` in the copy step for the third. -/
theorem claim_C4_counterexample :
    (strToLower (SrcFile.mk "a" ".Jpg" false).ext ∈ ACCEPT_EXTS ∧
      ensure_indexed (some [SrcFile.mk "a" ".Jpg" false]) =
        Except.error IndexError.noFrames) ∧
    (strToLower (SrcFile.mk ".hidden" ".jpg" false).ext ∈ ACCEPT_EXTS ∧
      ensure_indexed (some [SrcFile.mk ".hidden" ".jpg" false]) =
        Except.error IndexError.noFrames) ∧
    (strToLower (SrcFile.mk "sub" ".jpg" true).ext ∈ ACCEPT_EXTS ∧
      ensure_indexed (some [SrcFile.mk "sub" ".jpg" true]) =
        Except.error IndexError.copyFailed) := by
  exact ⟨⟨by decide, rfl⟩, ⟨by decide, rfl⟩, ⟨by decide, rfl⟩⟩

/-- C4 (amended): for every duplicate-free source directory listing in
which at least one entry is glob-matched (its name does not start with a
dot and its extension is jpg/jpeg/png in all-lowercase or all-uppercase
form — hidden files and mixed-case extensions are never discovered) and
no glob-matched entry is a subdirectory (one would make the copy step
raise `IsADirectoryError`), indexing succeeds and produces exactly as
many entries as glob-matched files, the entry of rank `k` being named
`{k:06d}` plus the lowercased extension of the `k`-th matched file in
the lexicographic order of the file paths. -/
theorem claim_C4_indexing (dir : List SrcFile) (hnd : dir.Nodup)
    (hsome : ∃ f ∈ dir, globMatch f = true)
    (hnodir : ∀ f ∈ dir, globMatch f = true → f.isDir = false) :
    ∃ es, ensure_indexed (some dir) = Except.ok es ∧
      es.length = (dir.filter globMatch).length ∧
      List.Perm (gather_frames dir) (dir.filter globMatch) ∧
      List.Sorted pathLe (gather_frames dir) ∧
      ∀ k (hk : k < es.length) (hk2 : k < (gather_frames dir).length),
        es.get ⟨k, hk⟩ = fmt6 k ++ strToLower ((gather_frames dir).get ⟨k, hk2⟩).ext := by
  have hdedup : (dir.filter globMatch).dedup = dir.filter globMatch :=
    List.Nodup.dedup (hnd.filter _)
  have hperm : List.Perm (gather_frames dir) (dir.filter globMatch) := by
    unfold gather_frames
    rw [hdedup]
    exact List.perm_insertionSort pathLe _
  have hsorted : List.Sorted pathLe (gather_frames dir) := by
    unfold gather_frames
    exact List.sorted_insertionSort pathLe _
  have hne : gather_frames dir ≠ [] := by
    obtain ⟨f, hf, hmatch⟩ := hsome
    exact List.ne_nil_of_mem (hperm.mem_iff.mpr (List.mem_filter.mpr ⟨hf, hmatch⟩))
  have hnodir2 : ¬ ∃ x ∈ gather_frames dir, x.isDir = true := by
    rintro ⟨x, hx, hxd⟩
    have hm := mem_gather_frames dir x hx
    rw [hnodir x hm.1 hm.2] at hxd
    cases hxd
  refine ⟨indexEntries 0 (gather_frames dir), ?_, ?_, hperm, hsorted, ?_⟩
  · simp [ensure_indexed, hne, hnodir2]
  · rw [indexEntries_length (gather_frames dir) 0 (gather_frames_accepted dir),
      hperm.length_eq]
  · intro k hk hk2
    have h := indexEntries_get (gather_frames dir) 0 k hk hk2 (gather_frames_accepted dir)
    simpa using h

/-- Witness for C4 (amended) on a two-file directory whose sorted order
swaps the listing order (note `.JPG` uppercases sort before lowercase
names). -/
theorem claim_C4_indexing_witness :
    ([SrcFile.mk "b" ".png" false, SrcFile.mk "a" ".JPG" false] : List SrcFile).Nodup ∧
    (∀ f ∈ ([SrcFile.mk "b" ".png" false, SrcFile.mk "a" ".JPG" false] : List SrcFile),
      globMatch f = true → f.isDir = false) ∧
    ∃ es, ensure_indexed
        (some [SrcFile.mk "b" ".png" false, SrcFile.mk "a" ".JPG" false]) = Except.ok es ∧
      es.length = (([SrcFile.mk "b" ".png" false, SrcFile.mk "a" ".JPG" false] :
        List SrcFile).filter globMatch).length ∧
      List.Perm (gather_frames [SrcFile.mk "b" ".png" false, SrcFile.mk "a" ".JPG" false])
        (([SrcFile.mk "b" ".png" false, SrcFile.mk "a" ".JPG" false] :
          List SrcFile).filter globMatch) ∧
      List.Sorted pathLe
        (gather_frames [SrcFile.mk "b" ".png" false, SrcFile.mk "a" ".JPG" false]) ∧
      ∀ k (hk : k < es.length)
        (hk2 : k <
          (gather_frames [SrcFile.mk "b" ".png" false, SrcFile.mk "a" ".JPG" false]).length),
        es.get ⟨k, hk⟩ = fmt6 k ++ strToLower
          ((gather_frames
            [SrcFile.mk "b" ".png" false, SrcFile.mk "a" ".JPG" false]).get ⟨k, hk2⟩).ext :=
  ⟨by decide, by decide,
    claim_C4_indexing [SrcFile.mk "b" ".png" false, SrcFile.mk "a" ".JPG" false] (by decide)
      ⟨SrcFile.mk "b" ".png" false, by decide⟩ (by decide)⟩

/- ===================== Claims C1 and C2 ===================== -/

/-- C1: in preview mode with requested count `n ≥ 1` over `N ≥ 1`
frames, the emission loop emits exactly `min n N` results, the first of
which is always the annotated frame `F`, and no frame index is emitted
twice.  The opaque SAM2 traversal is abstracted per the engine's
interface contract as a list `prop` visiting every frame other than the
annotated one exactly once (in any order); `chosen` is the random sample
of size `extra = clamp(n-1, 0, N-1)` drawn without replacement from the
candidates. -/
theorem claim_C1_preview_emission (n N F : Nat) (chosen prop : List Nat)
    (hn : 1 ≤ n) (hN : 1 ≤ N) (hF : F < N)
    (hprop : List.Perm prop (candidates N F))
    (hsub : ∀ i ∈ chosen, i ∈ candidates N F)
    (hchnd : chosen.Nodup)
    (hlen : chosen.length = extra_needed n N) :
    (emitPreview F n chosen prop).length = min n N ∧
    (emitPreview F n chosen prop).head? = some F ∧
    (emitPreview F n chosen prop).Nodup := by
  have hpropnd : prop.Nodup := hprop.nodup_iff.mpr (candidates_nodup N F)
  have hsub' : ∀ i ∈ chosen, i ∈ prop := fun i hi => hprop.mem_iff.mpr (hsub i hi)
  have hdisj : 1 < max 1 n ∨ chosen = [] := by
    by_cases h1 : n = 1
    · right
      have hz : extra_needed n N = 0 := by simp [extra_needed, h1]
      rw [hz] at hlen
      exact List.length_eq_zero.mp hlen
    · left; omega
  have heq : previewSaves chosen (max 1 n) prop 1 =
      (prop.filter (fun x => decide (x ∈ chosen))).take (max 1 n - 1) :=
    previewSaves_eq_take chosen (max 1 n) prop 1 hdisj
  have hfperm := filter_mem_perm prop chosen hpropnd hchnd hsub'
  have hflen : (prop.filter (fun x => decide (x ∈ chosen))).length = extra_needed n N := by
    rw [hfperm.length_eq, hlen]
  refine ⟨?_, rfl, ?_⟩
  · simp only [emitPreview, heq, List.length_cons, List.length_take, hflen]
    simp only [extra_needed]
    omega
  · have hfnd : (prop.filter (fun x => decide (x ∈ chosen))).Nodup := hpropnd.filter _
    have htnd : ((prop.filter (fun x => decide (x ∈ chosen))).take (max 1 n - 1)).Nodup :=
      hfnd.sublist (List.take_sublist _ _)
    have hFnot : F ∉ (prop.filter (fun x => decide (x ∈ chosen))).take (max 1 n - 1) := by
      intro hmem
      have h2 : F ∈ prop :=
        (List.mem_filter.mp ((List.take_sublist _ _).subset hmem)).1
      exact ((mem_candidates N F F).mp (hprop.mem_iff.mp h2)).2 rfl
    simp only [emitPreview, heq]
    exact List.nodup_cons.mpr ⟨hFnot, htnd⟩

/-- Witness for C1: 5 frames, annotated frame 3, preview of 3 frames,
sample {0, 4}, traversal order 4, 0, 1, 2. -/
theorem claim_C1_preview_emission_witness :
    (List.Perm [4, 0, 1, 2] (candidates 5 3) ∧
      ([0, 4] : List Nat).length = extra_needed 3 5) ∧
    (emitPreview 3 3 [0, 4] [4, 0, 1, 2]).length = min 3 5 ∧
    (emitPreview 3 3 [0, 4] [4, 0, 1, 2]).head? = some 3 ∧
    (emitPreview 3 3 [0, 4] [4, 0, 1, 2]).Nodup :=
  ⟨⟨by decide, by decide⟩,
    claim_C1_preview_emission 3 5 3 [0, 4] [4, 0, 1, 2] (by decide) (by decide)
      (by decide) (by decide) (by decide) (by decide) (by decide)⟩

/-- C2: in full mode over `N` frames, the emission sequence is the
annotated frame `F` followed by the propagation traversal, so exactly
`N` results are emitted with every frame index `0..N-1` appearing
exactly once and the annotated frame's result first.  As in C1, the
opaque traversal is abstracted as a list visiting every frame other than
the annotated one exactly once. -/
theorem claim_C2_full_emission (N F : Nat) (prop : List Nat)
    (hF : F < N) (hprop : List.Perm prop (candidates N F)) :
    (emitFull F prop).length = N ∧
    (emitFull F prop).head? = some F ∧
    ∀ i, (emitFull F prop).count i = if i < N then 1 else 0 := by
  have hpr : List.Perm (emitFull F prop) (List.range N) := by
    have h1 : List.Perm (emitFull F prop) (F :: candidates N F) := hprop.cons F
    have hnd : (F :: candidates N F).Nodup := by
      refine List.nodup_cons.mpr ⟨?_, candidates_nodup N F⟩
      intro h
      exact ((mem_candidates N F F).mp h).2 rfl
    have h2 : List.Perm (F :: candidates N F) (List.range N) := by
      apply (List.perm_ext_iff_of_nodup hnd (List.nodup_range N)).mpr
      intro a
      simp only [List.mem_cons, mem_candidates, List.mem_range]
      constructor
      · rintro (rfl | ⟨h, _⟩)
        · exact hF
        · exact h
      · intro ha
        by_cases haf : a = F
        · left; exact haf
        · right; exact ⟨ha, haf⟩
    exact h1.trans h2
  refine ⟨?_, rfl, ?_⟩
  · rw [hpr.length_eq, List.length_range]
  · intro i
    rw [hpr.count_eq]
    rcases Nat.lt_or_ge i N with h | h
    · simp [List.count_eq_one_of_mem (List.nodup_range N) (List.mem_range.mpr h), h]
    · simp [List.count_eq_zero_of_not_mem, h, Nat.not_lt.mpr h]

/-- Witness for C2: 3 frames, annotated frame 1, traversal order 2, 0. -/
theorem claim_C2_full_emission_witness :
    (1 < 3 ∧ List.Perm [2, 0] (candidates 3 1)) ∧
    (emitFull 1 [2, 0]).length = 3 ∧
    (emitFull 1 [2, 0]).head? = some 1 ∧
    ∀ i, (emitFull 1 [2, 0]).count i = if i < 3 then 1 else 0 :=
  ⟨⟨by decide, by decide⟩, claim_C2_full_emission 3 1 [2, 0] (by decide) (by decide)⟩
